import Mathlib

/-!
Verification of the versioned prompt-store core
(`src/backend/prompt_manager_core.py`) against its specification.

The SQLite-backed `PromptManager` class is shallowly embedded as pure
functions over an explicit database state `DB`.  Modelling conventions:

* Text (`str`) is modelled as `List Char` (`Str`).  `LOWER` in SQLite and
  `str.strip()` in Python act on ASCII exactly like `Char.toLower` and
  dropping `Char.isWhitespace` characters, which is what the model uses.
* The three tables are lists kept in rowid (insertion) order; SQLite's
  `AUTOINCREMENT` counters (starting at 1) are carried explicitly.
* `PRAGMA foreign_keys = ON` is active on every connection, so the model
  enforces the declared foreign keys: inserting a row whose `folder_id`
  names no folder fails with an integrity error (`Err.fkViolation`),
  `DELETE` on `folders` sets matching `folder_id`s to `NULL` in both
  `prompts` and `prompt_versions` (`ON DELETE SET NULL`), and `DELETE` on
  `prompts` cascades to `prompt_versions` (`ON DELETE CASCADE`).
* A failing operation rolls its transaction back, so every operation
  returns the unchanged state alongside the raised error.
* `created_at TIMESTAMP DEFAULT CURRENT_TIMESTAMP` is an opaque value
  fixed at insertion; the model uses the version rowid as the tick.
-/

abbrev Str := List Char

/-- Python `str.strip()` for the title/content validation and the
duplicate-title check of `add_prompt`. -/
def stripStr (s : Str) : Str :=
  ((s.dropWhile Char.isWhitespace).reverse.dropWhile Char.isWhitespace).reverse

/-- SQLite `LOWER`, which lowercases ASCII letters only, as does
`Char.toLower`. -/
def lowerStr (s : Str) : Str :=
  s.map Char.toLower

/-- Python `int(...)` on a string of decimal digits. -/
def digitsToNat (s : Str) : Nat :=
  s.foldl (fun n c => n * 10 + (c.toNat - 48)) 0

/-- The literal reference-marker text, Python `match.group(0)` for the
pattern that matched token `t`. -/
def mkMarker (t : Str) : Str :=
  '{' :: '{' :: t ++ '}' :: '}' :: []

/-- Row of the `prompts` table. -/
structure Prompt where
  id : Nat
  title : Str
  content : Str
  folder_id : Option Nat
  current_version : Nat
deriving DecidableEq, Repr

/-- Row of the `prompt_versions` table. -/
structure PromptVersion where
  id : Nat
  prompt_id : Nat
  title : Str
  content : Str
  folder_id : Option Nat
  created_at : Nat
  version_number : Nat
deriving DecidableEq, Repr

/-- Row of the `folders` table. -/
structure Folder where
  id : Nat
  name : Str
deriving DecidableEq, Repr

/-- The whole SQLite database owned by a `PromptManager`. -/
structure DB where
  folders : List Folder
  prompts : List Prompt
  versions : List PromptVersion
  next_folder_id : Nat
  next_prompt_id : Nat
  next_version_id : Nat
deriving DecidableEq, Repr

/-- A freshly initialised database (`init_db` on a new file). -/
def emptyDB : DB :=
  ⟨[], [], [], 1, 1, 1⟩

/-- Errors raised by the core.  The first two are the `sqlite3.Error`s
raised explicitly by `add_prompt` / `add_folder` (the spec's
ValidationError and DuplicateError); `fkViolation` is the
`sqlite3.IntegrityError` the engine raises for a foreign-key violation. -/
inductive Err where
  | validation
  | duplicate
  | fkViolation
deriving DecidableEq, Repr

deriving instance DecidableEq for Except

/-- The `FOREIGN KEY (folder_id) REFERENCES folders (id)` check: an
inserted `folder_id` must be `NULL` or name an existing folder. -/
def folderOk (folders : List Folder) : Option Nat → Bool
  | none => true
  | some f => folders.any (fun g => g.id == f)

/-- `get_prompt`: `SELECT ... FROM prompts WHERE id = ?`, first row. -/
def get_prompt (db : DB) (prompt_id : Nat) : Option Prompt :=
  db.prompts.find? (fun p => p.id == prompt_id)

/-- `add_prompt`: validate, check for a duplicate title
(`LOWER(title) = LOWER(?)` against the stripped new title), then insert
the prompt row and its version-1 row in one transaction. -/
def add_prompt (db : DB) (title content : Str) (folder_id : Option Nat) :
    Except Err Nat × DB :=
  if stripStr title = [] ∨ stripStr content = [] then
    (.error .validation, db)
  else if db.prompts.any (fun p => lowerStr p.title == lowerStr (stripStr title)) then
    (.error .duplicate, db)
  else if folderOk db.folders folder_id then
    (.ok db.next_prompt_id,
      { db with
        prompts := db.prompts ++
          [⟨db.next_prompt_id, title, content, folder_id, 1⟩],
        versions := db.versions ++
          [⟨db.next_version_id, db.next_prompt_id, title, content, folder_id,
            db.next_version_id, 1⟩],
        next_prompt_id := db.next_prompt_id + 1,
        next_version_id := db.next_version_id + 1 })
  else
    (.error .fkViolation, db)

/-- Insertion step of the `ORDER BY version_number DESC` sort used by
`get_prompt_versions`. -/
def insertDesc (v : PromptVersion) : List PromptVersion → List PromptVersion
  | [] => [v]
  | w :: ws =>
    if w.version_number ≤ v.version_number then v :: w :: ws
    else w :: insertDesc v ws

/-- `ORDER BY version_number DESC`. -/
def sortByVersionDesc : List PromptVersion → List PromptVersion
  | [] => []
  | v :: vs => insertDesc v (sortByVersionDesc vs)

/-- `get_prompt_versions`: all versions of a prompt, newest first. -/
def get_prompt_versions (db : DB) (prompt_id : Nat) : List PromptVersion :=
  sortByVersionDesc (db.versions.filter (fun v => v.prompt_id == prompt_id))

/-- `get_prompt_version`: `WHERE prompt_id = ? AND version_number = ?`,
first row. -/
def get_prompt_version (db : DB) (prompt_id version_number : Nat) :
    Option PromptVersion :=
  db.versions.find?
    (fun v => v.prompt_id == prompt_id && v.version_number == version_number)

/-- `update_prompt`: read `current_version` (returning `false` when the
prompt is absent), insert the new version row, and rewrite the prompt
row.  No validation and no duplicate check are performed; a dangling
`folder_id` makes the version insert fail on its foreign key. -/
def update_prompt (db : DB) (prompt_id : Nat) (title content : Str)
    (folder_id : Option Nat) : Except Err Bool × DB :=
  match db.prompts.find? (fun p => p.id == prompt_id) with
  | none => (.ok false, db)
  | some p =>
    if folderOk db.folders folder_id then
      (.ok true,
        { db with
          versions := db.versions ++
            [⟨db.next_version_id, prompt_id, title, content, folder_id,
              db.next_version_id, p.current_version + 1⟩],
          prompts := db.prompts.map (fun q =>
            if q.id == prompt_id then
              { q with
                title := title, content := content, folder_id := folder_id,
                current_version := p.current_version + 1 }
            else q),
          next_version_id := db.next_version_id + 1 })
    else
      (.error .fkViolation, db)

/-- `restore_version`: look the snapshot up and replay it through
`update_prompt`. -/
def restore_version (db : DB) (prompt_id version_number : Nat) :
    Except Err Bool × DB :=
  match get_prompt_version db prompt_id version_number with
  | none => (.ok false, db)
  | some v => update_prompt db prompt_id v.title v.content v.folder_id

/-- `add_folder`. -/
def add_folder (db : DB) (name : Str) : Except Err Nat × DB :=
  if stripStr name = [] then
    (.error .validation, db)
  else
    (.ok db.next_folder_id,
      { db with
        folders := db.folders ++ [⟨db.next_folder_id, name⟩],
        next_folder_id := db.next_folder_id + 1 })

/-- `update_folder`. -/
def update_folder (db : DB) (folder_id : Nat) (new_name : Str) : Bool × DB :=
  (db.folders.any (fun f => f.id == folder_id),
    { db with
      folders := db.folders.map (fun f =>
        if f.id == folder_id then ⟨f.id, new_name⟩ else f) })

/-- `ON DELETE SET NULL` on `prompts.folder_id`. -/
def clearFolderP (folder_id : Nat) (p : Prompt) : Prompt :=
  if p.folder_id == some folder_id then { p with folder_id := none } else p

/-- `ON DELETE SET NULL` on `prompt_versions.folder_id`. -/
def clearFolderV (folder_id : Nat) (v : PromptVersion) : PromptVersion :=
  if v.folder_id == some folder_id then { v with folder_id := none } else v

/-- `delete_folder`: delete the folder row; the engine's `ON DELETE SET
NULL` actions clear matching `folder_id`s in `prompts` and
`prompt_versions`. -/
def delete_folder (db : DB) (folder_id : Nat) : Bool × DB :=
  (db.folders.any (fun f => f.id == folder_id),
    { db with
      folders := db.folders.filter (fun f => !(f.id == folder_id)),
      prompts := db.prompts.map (clearFolderP folder_id),
      versions := db.versions.map (clearFolderV folder_id) })

/-- `delete_prompt`: delete the prompt row; `ON DELETE CASCADE` removes
all of its version rows. -/
def delete_prompt (db : DB) (prompt_id : Nat) : Bool × DB :=
  (db.prompts.any (fun p => p.id == prompt_id),
    { db with
      prompts := db.prompts.filter (fun p => !(p.id == prompt_id)),
      versions := db.versions.filter (fun v => !(v.prompt_id == prompt_id)) })

/-- First row of `SELECT content FROM prompts WHERE title = ?` (an exact,
case-sensitive comparison on a `TEXT` column). -/
def titleLookup (db : DB) (title : Str) : Option Str :=
  (db.prompts.find? (fun p => p.title == title)).map (fun p => p.content)

/-- The body of `replace_match` inside `resolve_prompt_references`: an
all-digits token is first tried as a prompt id; on a miss (or a
non-digit token) an exact title lookup is tried; if both miss the
original `{{token}}` text is kept.  Lookups in the model cannot raise,
so the `except` fallback never fires. -/
def replace_match (db : DB) (ref : Str) : Str :=
  match
    (if !ref.isEmpty && ref.all Char.isDigit then
      (get_prompt db (digitsToNat ref)).map (fun p => p.content)
    else none) with
  | some c => c
  | none =>
    match titleLookup db ref with
    | some c => c
    | none => mkMarker ref

/-- Two literal `}` characters at the head of the input (the `\}\}` tail
of the marker pattern). -/
def twoRBraces : Str → Option Str
  | d1 :: d2 :: tail => if d1 = '}' ∧ d2 = '}' then some tail else none
  | _ => none

/-- One test of the regex `\{\{([^}]+)\}\}` at the head of the input:
after `{{`, the greedy `[^}]+` takes the maximal run of non-`}`
characters, and the match succeeds exactly when that run is non-empty
and is followed by `}}` (the greedy run cannot backtrack into `\}\}`, so
this is the full regex semantics).  Returns the captured token and the
rest of the input after the match. -/
def matchMarker : Str → Option (Str × Str)
  | c1 :: c2 :: rest =>
    if c1 = '{' ∧ c2 = '{' ∧ rest.takeWhile (fun c => c != '}') ≠ [] then
      match twoRBraces (rest.dropWhile (fun c => c != '}')) with
      | some tail => some (rest.takeWhile (fun c => c != '}'), tail)
      | none => none
    else none
  | _ => none

/-- `re.sub` with the marker pattern: scan left to right, replacing each
leftmost non-overlapping match via `replace_match` and never rescanning
replacement text.  Structural fuel (initialised to the input length,
which the scan never exceeds) keeps the recursion structural. -/
def resolveAuxF (db : DB) : Nat → Str → Str
  | 0, s => s
  | _ + 1, [] => []
  | fuel + 1, c :: cs =>
    match matchMarker (c :: cs) with
    | some (tok, rest) => replace_match db tok ++ resolveAuxF db fuel rest
    | none => c :: resolveAuxF db fuel cs

/-- `resolve_prompt_references`. -/
def resolve_prompt_references (db : DB) (content : Str) : Str :=
  resolveAuxF db content.length content

/-- Python `str.replace(pat, rep)`: replace every non-overlapping
occurrence of `pat`, scanning left to right.  (`compose_prompt` only
ever calls this with the non-empty pattern `{name}`; an empty pattern is
mapped to the identity.)  Fuel as in `resolveAuxF`. -/
def replaceAllF (pat rep : Str) : Nat → Str → Str
  | 0, s => s
  | _ + 1, [] => []
  | fuel + 1, c :: cs =>
    if pat ≠ [] ∧ pat.isPrefixOf (c :: cs) then
      rep ++ replaceAllF pat rep fuel (cs.drop (pat.length - 1))
    else
      c :: replaceAllF pat rep fuel cs

/-- Python `str.replace`. -/
def replaceAll (pat rep s : Str) : Str :=
  replaceAllF pat rep s.length s

/-- `compose_prompt`: resolve references, then replace each
`{variable_name}` in the mapping's iteration order (a Python `dict`
iterates in insertion order, modelled by the list order).  Nothing in
the model raises, so the `ValueError` wrapper never fires. -/
def compose_prompt (db : DB) (content : Str) (vars : List (Str × Str)) : Str :=
  vars.foldl
    (fun acc nv => replaceAll ('{' :: nv.1 ++ ['}']) nv.2 acc)
    (resolve_prompt_references db content)

/-! ### Specification-side definitions

These follow the words of the specification/claims and are compared with
the source-side functions above. -/

/-- Replacement rule as the claims state it: the span is replaced by the
current content of the prompt with id = token when the token is all
digits and such a prompt exists, otherwise by the current content of the
prompt whose title equals the token exactly, otherwise the span is kept
verbatim. -/
def substSpec (db : DB) (tok : Str) : Str :=
  if (!tok.isEmpty && tok.all Char.isDigit) = true ∧
      (get_prompt db (digitsToNat tok)).isSome = true then
    ((get_prompt db (digitsToNat tok)).map (fun p => p.content)).getD []
  else
    match titleLookup db tok with
    | some c => c
    | none => mkMarker tok

/-- Locate the first `{{token}}` span of the input: returns the
marker-free prefix, the token, and the rest of the input after the
span. -/
def findMarker : Str → Option (Str × Str × Str)
  | [] => none
  | c :: cs =>
    match matchMarker (c :: cs) with
    | some (tok, rest) => some ([], tok, rest)
    | none => (findMarker cs).map (fun x => (c :: x.1, x.2.1, x.2.2))

/-- Single left-to-right pass over the non-overlapping spans, as the
claim describes it: replace the first span by `substSpec` and continue
after it, never rescanning inserted text.  Fuel decreases once per span;
the input length is a strict bound on the number of spans. -/
def resolveSpecF (db : DB) : Nat → Str → Str
  | 0, s => s
  | fuel + 1, s =>
    match findMarker s with
    | none => s
    | some (pre, tok, rest) => pre ++ substSpec db tok ++ resolveSpecF db fuel rest

/-- The claims' description of `resolveReferences`. -/
def resolveSpec (db : DB) (s : Str) : Str :=
  resolveSpecF db s.length s

/-- Every `{{token}}` span of the single pass is unresolvable (its token
finds neither a prompt id nor a title). -/
def allUnresolvedF (db : DB) : Nat → Str → Bool
  | 0, _ => true
  | _ + 1, [] => true
  | fuel + 1, c :: cs =>
    match matchMarker (c :: cs) with
    | some (tok, rest) => replace_match db tok == mkMarker tok && allUnresolvedF db fuel rest
    | none => allUnresolvedF db fuel cs

/-- All markers of the input (if any) are unresolvable. -/
def allUnresolved (db : DB) (s : Str) : Bool :=
  allUnresolvedF db s.length s

/-- Sequential variable replacement in the mapping's iteration order, as
the claim words it. -/
def composeGo : Str → List (Str × Str) → Str
  | acc, [] => acc
  | acc, (n, v) :: rest => composeGo (replaceAll ('{' :: n ++ ['}']) v acc) rest

/-- The claims' description of `compose`: resolve references first, then
replace every literal `{name}` for each pair in iteration order. -/
def composeSpec (db : DB) (content : Str) (vars : List (Str × Str)) : Str :=
  composeGo (resolve_prompt_references db content) vars

/-! ### Reachable-state invariant -/

/-- Facts maintained by every operation, used as the "reachable state"
hypothesis of the claims: row ids stay below the autoincrement counters,
every version row's prompt exists (its foreign key), and every version
row's folder reference is intact (`NULL` or an existing folder). -/
abbrev DBInv (db : DB) : Prop :=
  (∀ p ∈ db.prompts, p.id < db.next_prompt_id) ∧
  (∀ v ∈ db.versions, v.prompt_id < db.next_prompt_id) ∧
  (∀ v ∈ db.versions, db.prompts.any (fun p => p.id == v.prompt_id) = true) ∧
  (∀ v ∈ db.versions, folderOk db.folders v.folder_id = true)

/-- The state-changing operations of the core. -/
inductive Op where
  | addPrompt (title content : Str) (folder_id : Option Nat)
  | updatePrompt (prompt_id : Nat) (title content : Str) (folder_id : Option Nat)
  | restoreVersion (prompt_id version_number : Nat)
  | deletePrompt (prompt_id : Nat)
  | addFolder (name : Str)
  | updateFolder (folder_id : Nat) (new_name : Str)
  | deleteFolder (folder_id : Nat)
deriving DecidableEq, Repr

/-- The state reached after an operation (errors roll back, so the state
component is well defined in every case). -/
def applyOp (db : DB) : Op → DB
  | .addPrompt t c f => (add_prompt db t c f).2
  | .updatePrompt pid t c f => (update_prompt db pid t c f).2
  | .restoreVersion pid vn => (restore_version db pid vn).2
  | .deletePrompt pid => (delete_prompt db pid).2
  | .addFolder n => (add_folder db n).2
  | .updateFolder fid n => (update_folder db fid n).2
  | .deleteFolder fid => (delete_folder db fid).2

/-- A sequence of `update_prompt` calls on one prompt, all of which must
succeed (return `true`). -/
def runUpdates (db : DB) (prompt_id : Nat) :
    List (Str × Str × Option Nat) → Option DB
  | [] => some db
  | (t, c, f) :: rest =>
    match update_prompt db prompt_id t c f with
    | (.ok true, db') => runUpdates db' prompt_id rest
    | _ => none

/-- `[1, 2, ..., n]`. -/
def ascRange (n : Nat) : List Nat :=
  (List.range n).map (fun i => i + 1)

/-- `[n, n-1, ..., 1]`. -/
def descRange (n : Nat) : List Nat :=
  (ascRange n).reverse

/-- The version numbers stored for one prompt, in rowid order. -/
def versionNums (db : DB) (prompt_id : Nat) : List Nat :=
  (db.versions.filter (fun v => v.prompt_id == prompt_id)).map
    (fun v => v.version_number)

/-! ### Helper lemmas -/

theorem map_congr_mem {α β : Type _} {f g : α → β} :
    ∀ {l : List α}, (∀ a ∈ l, f a = g a) → l.map f = l.map g
  | [], _ => rfl
  | a :: l, h => by
    simp only [List.map_cons]
    rw [h a (by simp), map_congr_mem (fun b hb => h b (by simp [hb]))]

/-! ### Claims -/

/-- Database after `add_prompt("Foo", "c")` on a fresh store. -/
def fooDB : DB := (add_prompt emptyDB ("Foo".toList) ("c".toList) none).2

/-- Database after `add_prompt("  Foo  ", "c")` on a fresh store. -/
def wsDB : DB := (add_prompt emptyDB ("  Foo  ".toList) ("c".toList) none).2

/-- Claim C10: the duplicate check compares the stripped new title
case-insensitively against stored titles saved unstripped, so adding
"Foo" and then "  Foo  " raises the duplicate error although the titles
differ, while adding "  Foo  " first and then "Foo" succeeds and leaves
two prompts whose titles differ only in surrounding whitespace. -/
theorem claim_C10 :
    ("Foo".toList ≠ ("  Foo  ".toList)) ∧
    add_prompt fooDB ("  Foo  ".toList) ("c".toList) none =
      ((.error .duplicate : Except Err Nat), fooDB) ∧
    (add_prompt wsDB ("Foo".toList) ("c".toList) none).1 = .ok 2 ∧
    ((add_prompt wsDB ("Foo".toList) ("c".toList) none).2.prompts.map
      (fun p => p.title)) = [("  Foo  ".toList), ("Foo".toList)] :=
  ⟨by decide, by decide, by decide, by decide⟩

/-- Claim C9: `delete_folder` returns true exactly when the folder
existed, and its only effect on prompts is to clear the `folder_id` of
every prompt that referenced the folder, leaving id, title, content and
current_version of every prompt unchanged and deleting none. -/
theorem claim_C9 (db : DB) (fid : Nat) :
    ((delete_folder db fid).1 = true ↔ ∃ g ∈ db.folders, g.id = fid) ∧
    (delete_folder db fid).2.prompts =
      db.prompts.map (fun p =>
        if p.folder_id = some fid then { p with folder_id := none } else p) := by
  constructor
  · simp [delete_folder, List.any_eq_true, beq_iff_eq]
  · show db.prompts.map (clearFolderP fid) = _
    refine map_congr_mem ?_
    intro p _
    by_cases h : p.folder_id = some fid <;> simp [clearFolderP, h]

/-- Database after `add_prompt(" x ", "c")` on a fresh store. -/
def c7db : DB := (add_prompt emptyDB (" x ".toList) ("c".toList) none).2

/-- Claim C7 counterexample: a prompt whose title equals " X "
case-insensitively (namely " x ") exists, yet adding " X " does not
raise DuplicateError — it succeeds — because the check strips the new
title before comparing. -/
theorem claim_C7_cex :
    (∃ p ∈ c7db.prompts, lowerStr p.title = lowerStr (" X ".toList)) ∧
    (add_prompt c7db (" X ".toList) ("c".toList) none).1 = .ok 2 :=
  ⟨by decide, by decide⟩

/-- Claim C7 (amended): `add_prompt` raises ValidationError when title
or content strips to empty, and raises DuplicateError when a stored
prompt's title equals the *stripped* new title case-insensitively (so
"Foo" then "foo" fails); in either error case the state — and with it
every prompt and version row — is unchanged. -/
theorem claim_C7 (db : DB) (t c : Str) (f : Option Nat) :
    (stripStr t = [] ∨ stripStr c = [] →
      add_prompt db t c f = (.error .validation, db)) ∧
    (stripStr t ≠ [] → stripStr c ≠ [] →
      (∃ p ∈ db.prompts, lowerStr p.title = lowerStr (stripStr t)) →
      add_prompt db t c f = (.error .duplicate, db)) := by
  constructor
  · intro h
    unfold add_prompt
    rw [if_pos h]
  · intro ht hc hd
    have hany : db.prompts.any
        (fun p => lowerStr p.title == lowerStr (stripStr t)) = true := by
      obtain ⟨p, hp, he⟩ := hd
      exact List.any_eq_true.mpr ⟨p, hp, by simp [he]⟩
    unfold add_prompt
    rw [if_neg (by tauto), if_pos hany]

/-- Claim C7 witness: "Foo" then "foo" raises DuplicateError and leaves
the state unchanged. -/
theorem claim_C7_witness :
    add_prompt fooDB ("foo".toList) ("c".toList) none =
      ((.error .duplicate : Except Err Nat), fooDB) :=
  (claim_C7 fooDB ("foo".toList) ("c".toList) none).2
    (by decide) (by decide) (by decide)

/-- Database after `add_prompt("t", "c")` on a fresh store. -/
def c6db : DB := (add_prompt emptyDB ("t".toList) ("c".toList) none).2

/-- Claim C6 counterexample: prompt 1 exists, yet `update_prompt` with a
dangling folder id 5 does not return true and creates no version — the
version insert violates its foreign key and the engine raises an
IntegrityError, rolling back. -/
theorem claim_C6_cex :
    get_prompt c6db 1 ≠ none ∧
    update_prompt c6db 1 ("x".toList) ("y".toList) (some 5) =
      ((.error .fkViolation : Except Err Bool), c6db) :=
  ⟨by decide, by decide⟩

/-- Claim C6 (amended): if the prompt id does not exist, `update_prompt`
returns false and changes nothing; if it exists and the folder id is
absent or names an existing folder, the update succeeds (returns true,
raising neither ValidationError nor DuplicateError even for empty or
colliding titles), appending the new version row and rewriting the
prompt row.  (With a dangling folder id the engine instead raises a
foreign-key IntegrityError and nothing changes.) -/
theorem claim_C6 (db : DB) (pid : Nat) (t c : Str) (f : Option Nat) :
    (get_prompt db pid = none → update_prompt db pid t c f = (.ok false, db)) ∧
    (∀ p, get_prompt db pid = some p → folderOk db.folders f = true →
      update_prompt db pid t c f =
        (.ok true,
          { db with
            versions := db.versions ++
              [⟨db.next_version_id, pid, t, c, f, db.next_version_id,
                p.current_version + 1⟩],
            prompts := db.prompts.map (fun q =>
              if q.id == pid then
                { q with
                  title := t, content := c, folder_id := f,
                  current_version := p.current_version + 1 }
              else q),
            next_version_id := db.next_version_id + 1 })) := by
  constructor
  · intro h
    unfold get_prompt at h
    unfold update_prompt
    rw [h]
  · intro p hp hf
    unfold get_prompt at hp
    unfold update_prompt
    rw [hp]
    dsimp only
    rw [if_pos hf]

/-- Claim C6 witness: updating existing prompt 1 with no folder succeeds
and appends version 2. -/
theorem claim_C6_witness :
    update_prompt c6db 1 ("x".toList) ("y".toList) none =
      (.ok true,
        { c6db with
          versions := c6db.versions ++
            [⟨c6db.next_version_id, 1, ("x".toList), ("y".toList), none,
              c6db.next_version_id, 2⟩],
          prompts := c6db.prompts.map (fun q =>
            if q.id == 1 then
              { q with
                title := ("x".toList), content := ("y".toList),
                folder_id := none, current_version := 2 }
            else q),
          next_version_id := c6db.next_version_id + 1 }) :=
  (claim_C6 c6db 1 ("x".toList) ("y".toList) none).2
    ⟨1, ("t".toList), ("c".toList), none, 1⟩ (by decide) (by decide)

theorem foldl_eq_composeGo :
    ∀ (vars : List (Str × Str)) (acc : Str),
      vars.foldl (fun acc nv => replaceAll ('{' :: nv.1 ++ ['}']) nv.2 acc) acc =
        composeGo acc vars
  | [], _ => rfl
  | (n, v) :: rest, acc => by
    simp only [List.foldl_cons, composeGo]
    exact foldl_eq_composeGo rest _

/-- Claim C8: `compose_prompt` equals resolving references first and
then, for each (name, value) pair in iteration order, replacing every
literal occurrence of `{name}`; in particular composing
"Hello {name}!" with name ↦ "World" gives "Hello World!". -/
theorem claim_C8 (db : DB) (content : Str) (vars : List (Str × Str)) :
    compose_prompt db content vars = composeSpec db content vars ∧
    compose_prompt emptyDB ("Hello {name}!".toList)
        [(("name".toList), ("World".toList))] = ("Hello World!".toList) :=
  ⟨foldl_eq_composeGo vars (resolve_prompt_references db content), by decide⟩

/-- Claim C2: a successful `add_prompt` (valid title/content) makes
`get_prompt` of the returned id a prompt with `current_version = 1`
whose fields are the arguments, with exactly one version row (number 1,
same snapshot); on any error the transaction rolls back and the state is
unchanged (both rows visible or neither). -/
theorem claim_C2 (db : DB) (t c : Str) (f : Option Nat) (hInv : DBInv db)
    (ht : stripStr t ≠ []) (hc : stripStr c ≠ []) :
    match add_prompt db t c f with
    | (.ok pid, db') =>
      get_prompt db' pid = some ⟨pid, t, c, f, 1⟩ ∧
      db'.versions.filter (fun v => v.prompt_id == pid) =
        [⟨db.next_version_id, pid, t, c, f, db.next_version_id, 1⟩]
    | (.error _, db') => db' = db := by
  obtain ⟨h1, h2, -, -⟩ := hInv
  unfold add_prompt
  split_ifs with hv hd hfo
  · rfl
  · rfl
  · refine ⟨?_, ?_⟩
    · unfold get_prompt
      show (db.prompts ++ [(⟨db.next_prompt_id, t, c, f, 1⟩ : Prompt)]).find?
          (fun p => p.id == db.next_prompt_id) =
        some (⟨db.next_prompt_id, t, c, f, 1⟩ : Prompt)
      rw [List.find?_append]
      have hnone : db.prompts.find? (fun p => p.id == db.next_prompt_id) = none := by
        refine List.find?_eq_none.mpr (fun p hp => ?_)
        have := h1 p hp
        simp only [beq_iff_eq]
        omega
      rw [hnone]
      simp [List.find?_cons]
    · show (db.versions ++
          [(⟨db.next_version_id, db.next_prompt_id, t, c, f, db.next_version_id, 1⟩ :
            PromptVersion)]).filter
          (fun v => v.prompt_id == db.next_prompt_id) =
        [(⟨db.next_version_id, db.next_prompt_id, t, c, f, db.next_version_id, 1⟩ :
          PromptVersion)]
      rw [List.filter_append]
      have hnil : db.versions.filter (fun v => v.prompt_id == db.next_prompt_id) = [] := by
        refine List.filter_eq_nil_iff.mpr (fun v hv => ?_)
        have := h2 v hv
        simp only [beq_iff_eq]
        omega
      rw [hnil]
      simp
  · rfl

/-- Claim C2 witness: adding "t"/"c" to the fresh store. -/
theorem claim_C2_witness :
    match add_prompt emptyDB ("t".toList) ("c".toList) none with
    | (.ok pid, db') =>
      get_prompt db' pid = some ⟨pid, ("t".toList), ("c".toList), none, 1⟩ ∧
      db'.versions.filter (fun v => v.prompt_id == pid) =
        [⟨emptyDB.next_version_id, pid, ("t".toList), ("c".toList), none,
          emptyDB.next_version_id, 1⟩]
    | (.error _, db') => db' = emptyDB :=
  claim_C2 emptyDB ("t".toList) ("c".toList) none (by decide) (by decide) (by decide)

/-- Claim C3: `restore_version(id, k)` returns false and changes nothing
when version k does not exist; otherwise it returns true and appends
exactly one new version numbered `current_version + 1` carrying version
k's snapshot, rewriting the prompt row to match and leaving every
existing version row in place. -/
theorem claim_C3 (db : DB) (pid k : Nat) (hInv : DBInv db) :
    (get_prompt_version db pid k = none →
      restore_version db pid k = (.ok false, db)) ∧
    (∀ v, get_prompt_version db pid k = some v →
      ∃ p, get_prompt db pid = some p ∧
        restore_version db pid k =
          (.ok true,
            { db with
              versions := db.versions ++
                [⟨db.next_version_id, pid, v.title, v.content, v.folder_id,
                  db.next_version_id, p.current_version + 1⟩],
              prompts := db.prompts.map (fun q =>
                if q.id == pid then
                  { q with
                    title := v.title, content := v.content,
                    folder_id := v.folder_id,
                    current_version := p.current_version + 1 }
                else q),
              next_version_id := db.next_version_id + 1 })) := by
  obtain ⟨-, -, h3, h4⟩ := hInv
  constructor
  · intro h
    unfold restore_version
    rw [h]
  · intro v hv
    have hvm : v ∈ db.versions := List.mem_of_find?_eq_some hv
    have hpred := List.find?_some hv
    have hpid : v.prompt_id = pid := by
      simp only [Bool.and_eq_true, beq_iff_eq] at hpred
      exact hpred.1
    have hfind : ∃ p, db.prompts.find? (fun q => q.id == pid) = some p := by
      rw [← Option.isSome_iff_exists]
      refine List.find?_isSome.mpr ?_
      have := List.any_eq_true.mp (h3 v hvm)
      rw [hpid] at this
      exact this
    obtain ⟨p, hp⟩ := hfind
    refine ⟨p, hp, ?_⟩
    unfold restore_version
    rw [hv]
    unfold update_prompt
    rw [hp]
    dsimp only
    rw [if_pos (h4 v hvm)]

/-- Database after `add_prompt("t", "c")`, used to instantiate C3. -/
def c3db : DB := (add_prompt emptyDB ("t".toList) ("c".toList) none).2

/-- Claim C3 witness: restoring prompt 1 to its (existing) version 1
succeeds and appends version 2 carrying version 1's snapshot. -/
theorem claim_C3_witness :
    ∃ p, get_prompt c3db 1 = some p ∧
      restore_version c3db 1 1 =
        (.ok true,
          { c3db with
            versions := c3db.versions ++
              [⟨c3db.next_version_id, 1, ("t".toList), ("c".toList), none,
                c3db.next_version_id, p.current_version + 1⟩],
            prompts := c3db.prompts.map (fun q =>
              if q.id == 1 then
                { q with
                  title := ("t".toList), content := ("c".toList),
                  folder_id := none,
                  current_version := p.current_version + 1 }
              else q),
            next_version_id := c3db.next_version_id + 1 }) :=
  (claim_C3 c3db 1 1 (by decide)).2
    ⟨1, 1, ("t".toList), ("c".toList), none, 1, 1⟩ (by decide)

theorem ascRange_succ (n : Nat) : ascRange (n + 1) = ascRange n ++ [n + 1] := by
  unfold ascRange
  rw [List.range_succ, List.map_append]
  rfl

theorem pairwise_lt_ascRange (n : Nat) : (ascRange n).Pairwise (· < ·) := by
  unfold ascRange
  exact List.pairwise_map.mpr ((List.pairwise_lt_range n).imp
    (fun h => Nat.succ_lt_succ h))

theorem insertDesc_of_gt (v : PromptVersion) :
    ∀ l : List PromptVersion,
      (∀ w ∈ l, v.version_number < w.version_number) →
      insertDesc v l = l ++ [v]
  | [], _ => rfl
  | w :: ws, h => by
    have hw := h w (by simp)
    simp only [insertDesc]
    rw [if_neg (by omega), insertDesc_of_gt v ws (fun x hx => h x (by simp [hx]))]
    simp

theorem sortDesc_of_pairwise :
    ∀ l : List PromptVersion,
      l.Pairwise (fun a b => a.version_number < b.version_number) →
      sortByVersionDesc l = l.reverse
  | [], _ => rfl
  | v :: vs, h => by
    obtain ⟨hv, hvs⟩ := List.pairwise_cons.mp h
    simp only [sortByVersionDesc]
    rw [sortDesc_of_pairwise vs hvs,
      insertDesc_of_gt v vs.reverse (fun w hw => hv w (List.mem_reverse.mp hw))]
    simp

theorem get_prompt_versions_eq (db : DB) (pid n : Nat)
    (h : versionNums db pid = ascRange n) :
    (get_prompt_versions db pid).map (fun v => v.version_number) = descRange n := by
  unfold get_prompt_versions
  unfold versionNums at h
  have hpw : (db.versions.filter (fun v => v.prompt_id == pid)).Pairwise
      (fun a b => a.version_number < b.version_number) := by
    refine List.pairwise_map.mp ?_
    rw [h]
    exact pairwise_lt_ascRange n
  rw [sortDesc_of_pairwise _ hpw, List.map_reverse, h]
  rfl

theorem find?_new_prompt (db : DB) (t c : Str) (f : Option Nat)
    (h1 : ∀ p ∈ db.prompts, p.id < db.next_prompt_id) :
    (db.prompts ++ [(⟨db.next_prompt_id, t, c, f, 1⟩ : Prompt)]).find?
      (fun p => p.id == db.next_prompt_id) =
      some (⟨db.next_prompt_id, t, c, f, 1⟩ : Prompt) := by
  rw [List.find?_append]
  have hnone : db.prompts.find? (fun p => p.id == db.next_prompt_id) = none := by
    refine List.find?_eq_none.mpr (fun p hp => ?_)
    have := h1 p hp
    simp only [beq_iff_eq]
    omega
  rw [hnone]
  simp [List.find?_cons]

theorem filter_new_version (db : DB) (w : PromptVersion)
    (h2 : ∀ v ∈ db.versions, v.prompt_id < db.next_prompt_id)
    (hw : w.prompt_id = db.next_prompt_id) :
    (db.versions ++ [w]).filter
      (fun v => v.prompt_id == db.next_prompt_id) = [w] := by
  rw [List.filter_append]
  have hnil : db.versions.filter (fun v => v.prompt_id == db.next_prompt_id) = [] := by
    refine List.filter_eq_nil_iff.mpr (fun v hv => ?_)
    have := h2 v hv
    simp only [beq_iff_eq]
    omega
  rw [hnil]
  simp [hw]

theorem runUpdates_track (pid : Nat) :
    ∀ (us : List (Str × Str × Option Nat)) (db db₂ : DB) (row : Prompt),
      get_prompt db pid = some row →
      versionNums db pid = ascRange row.current_version →
      runUpdates db pid us = some db₂ →
      ∃ row₂ : Prompt, get_prompt db₂ pid = some row₂ ∧
        row₂.current_version = row.current_version + us.length ∧
        versionNums db₂ pid = ascRange row₂.current_version
  | [], db, db₂, row, hrow, hnums, hrun => by
    cases hrun
    exact ⟨row, hrow, by simp, hnums⟩
  | (t, c, f) :: rest, db, db₂, row, hrow, hnums, hrun => by
    unfold get_prompt at hrow
    unfold runUpdates at hrun
    unfold update_prompt at hrun
    rw [hrow] at hrun
    dsimp only at hrun
    by_cases hfo : folderOk db.folders f = true
    · rw [if_pos hfo] at hrun
      dsimp only at hrun
      have hbeq := List.find?_some hrow
      have hg : get_prompt
          { db with
            versions := db.versions ++
              [⟨db.next_version_id, pid, t, c, f, db.next_version_id,
                row.current_version + 1⟩],
            prompts := db.prompts.map (fun q =>
              if q.id == pid then
                { q with
                  title := t, content := c, folder_id := f,
                  current_version := row.current_version + 1 }
              else q),
            next_version_id := db.next_version_id + 1 } pid =
          some { row with
                 title := t, content := c, folder_id := f,
                 current_version := row.current_version + 1 } := by
        unfold get_prompt
        dsimp only
        rw [List.find?_map]
        have hcomp : ((fun p : Prompt => p.id == pid) ∘ (fun q : Prompt =>
            if q.id == pid then
              { q with
                title := t, content := c, folder_id := f,
                current_version := row.current_version + 1 }
            else q)) = fun p : Prompt => p.id == pid := by
          funext q
          by_cases hq : (q.id == pid) = true <;> simp [Function.comp, hq]
        rw [hcomp, hrow]
        have hid : row.id = pid := by simpa using hbeq
        simp [hid]
      have hn : versionNums
          { db with
            versions := db.versions ++
              [⟨db.next_version_id, pid, t, c, f, db.next_version_id,
                row.current_version + 1⟩],
            prompts := db.prompts.map (fun q =>
              if q.id == pid then
                { q with
                  title := t, content := c, folder_id := f,
                  current_version := row.current_version + 1 }
              else q),
            next_version_id := db.next_version_id + 1 } pid =
          ascRange (row.current_version + 1) := by
        unfold versionNums
        dsimp only
        rw [List.filter_append]
        have hone : List.filter (fun v => v.prompt_id == pid)
            [(⟨db.next_version_id, pid, t, c, f, db.next_version_id,
              row.current_version + 1⟩ : PromptVersion)] =
            [⟨db.next_version_id, pid, t, c, f, db.next_version_id,
              row.current_version + 1⟩] := by
          simp [List.filter]
        rw [hone, List.map_append]
        have := hnums
        unfold versionNums at this
        rw [this, ascRange_succ]
        rfl
      obtain ⟨row₂, ha, hb, hc2⟩ := runUpdates_track pid rest _ db₂ _ hg hn hrun
      refine ⟨row₂, ha, ?_, hc2⟩
      simp only [List.length_cons]
      simp only at hb
      omega
    · rw [if_neg hfo] at hrun
      simp at hrun

theorem add_prompt_ok (db db' : DB) (t c : Str) (f : Option Nat) (pid : Nat)
    (h1 : ∀ p ∈ db.prompts, p.id < db.next_prompt_id)
    (h2 : ∀ v ∈ db.versions, v.prompt_id < db.next_prompt_id)
    (hAdd : add_prompt db t c f = (.ok pid, db')) :
    get_prompt db' pid = some ⟨pid, t, c, f, 1⟩ ∧
    versionNums db' pid = ascRange 1 := by
  unfold add_prompt at hAdd
  split_ifs at hAdd with hv hd hfo
  · simp at hAdd
  · simp at hAdd
  · rw [Prod.mk.injEq] at hAdd
    obtain ⟨hp, hdb⟩ := hAdd
    injection hp with hpe
    rw [← hdb, ← hpe]
    refine ⟨find?_new_prompt db t c f h1, ?_⟩
    unfold versionNums
    show ((db.versions ++
      [(⟨db.next_version_id, db.next_prompt_id, t, c, f, db.next_version_id, 1⟩ :
        PromptVersion)]).filter (fun v => v.prompt_id == db.next_prompt_id)).map
        (fun v => v.version_number) = ascRange 1
    rw [filter_new_version db
      ⟨db.next_version_id, db.next_prompt_id, t, c, f, db.next_version_id, 1⟩
      h2 rfl]
    rfl
  · simp at hAdd

/-- Claim C1: creating a prompt and applying N successful
`update_prompt` calls to it leaves `get_prompt_versions` with exactly
N+1 versions numbered N+1 down to 1 (descending, no gaps), and the
prompt's `current_version` equal to N+1, the maximum version number
present. -/
theorem claim_C1 (db₀ db₁ db₂ : DB) (t c : Str) (f : Option Nat) (pid : Nat)
    (us : List (Str × Str × Option Nat))
    (hInv : DBInv db₀)
    (hAdd : add_prompt db₀ t c f = (.ok pid, db₁))
    (hRun : runUpdates db₁ pid us = some db₂) :
    (get_prompt_versions db₂ pid).map (fun v => v.version_number) =
      descRange (us.length + 1) ∧
    (get_prompt db₂ pid).map (fun p => p.current_version) =
      some (us.length + 1) := by
  obtain ⟨h1, h2, -, -⟩ := hInv
  obtain ⟨hg, hn⟩ := add_prompt_ok db₀ db₁ t c f pid h1 h2 hAdd
  obtain ⟨row₂, ha, hb, hc2⟩ :=
    runUpdates_track pid us db₁ db₂ ⟨pid, t, c, f, 1⟩ hg hn hRun
  simp only at hb
  have hcv : row₂.current_version = us.length + 1 := by omega
  constructor
  · have := get_prompt_versions_eq db₂ pid row₂.current_version hc2
    rw [hcv] at this
    exact this
  · rw [ha]
    simp [hcv]

/-- State after adding prompt "t"/"c" to the fresh store (C1 witness). -/
def c1db1 : DB := (add_prompt emptyDB ("t".toList) ("c".toList) none).2

/-- State after one further update of prompt 1 (C1 witness). -/
def c1db2 : DB := (update_prompt c1db1 1 ("a".toList) ("b".toList) none).2

/-- Claim C1 witness: one creation plus one successful update yields
versions [2, 1] and current_version 2. -/
theorem claim_C1_witness :
    (get_prompt_versions c1db2 1).map (fun v => v.version_number) =
      descRange 2 ∧
    (get_prompt c1db2 1).map (fun p => p.current_version) = some 2 :=
  claim_C1 emptyDB c1db1 c1db2 ("t".toList) ("c".toList) none 1
    [(("a".toList), ("b".toList), none)]
    (by decide) (by decide) (by decide)

theorem mem_versions_update (db : DB) (pid : Nat) (t c : Str) (f : Option Nat)
    (v : PromptVersion) (hv : v ∈ db.versions) :
    v ∈ (update_prompt db pid t c f).2.versions := by
  unfold update_prompt
  split
  · exact hv
  · split
    · exact List.mem_append_left _ hv
    · exact hv

/-- Claim C5 (amended): no operation ever changes the id, prompt_id,
title, content, created_at or version_number of an existing version
row; the only field change is `delete_folder` clearing `folder_id` via
`ON DELETE SET NULL` on version rows that referenced the deleted folder;
and a version row disappears only through `delete_prompt` of its owning
prompt, which cascades to all of that prompt's versions. -/
theorem claim_C5 (db : DB) (op : Op) (v : PromptVersion)
    (hv : v ∈ db.versions) :
    ((∃ v' ∈ (applyOp db op).versions,
      v'.id = v.id ∧ v'.prompt_id = v.prompt_id ∧ v'.title = v.title ∧
      v'.content = v.content ∧ v'.created_at = v.created_at ∧
      v'.version_number = v.version_number ∧
      (v'.folder_id = v.folder_id ∨
        ∃ fid, op = .deleteFolder fid ∧ v.folder_id = some fid ∧
          v'.folder_id = none)) ∨
      op = .deletePrompt v.prompt_id) ∧
    (delete_prompt db v.prompt_id).2.versions.filter
      (fun w => w.prompt_id == v.prompt_id) = [] := by
  constructor
  · cases op with
    | addPrompt t c f =>
      left
      refine ⟨v, ?_, rfl, rfl, rfl, rfl, rfl, rfl, Or.inl rfl⟩
      show v ∈ (add_prompt db t c f).2.versions
      unfold add_prompt
      split_ifs
      · exact hv
      · exact hv
      · exact List.mem_append_left _ hv
      · exact hv
    | updatePrompt pid t c f =>
      exact Or.inl ⟨v, mem_versions_update db pid t c f v hv,
        rfl, rfl, rfl, rfl, rfl, rfl, Or.inl rfl⟩
    | restoreVersion pid vn =>
      left
      refine ⟨v, ?_, rfl, rfl, rfl, rfl, rfl, rfl, Or.inl rfl⟩
      show v ∈ (restore_version db pid vn).2.versions
      unfold restore_version
      split
      · exact hv
      · exact mem_versions_update db pid _ _ _ v hv
    | deletePrompt pid =>
      by_cases hp : v.prompt_id = pid
      · right
        rw [hp]
      · left
        refine ⟨v, ?_, rfl, rfl, rfl, rfl, rfl, rfl, Or.inl rfl⟩
        show v ∈ (delete_prompt db pid).2.versions
        unfold delete_prompt
        refine List.mem_filter.mpr ⟨hv, ?_⟩
        simp [hp]
    | addFolder n =>
      left
      refine ⟨v, ?_, rfl, rfl, rfl, rfl, rfl, rfl, Or.inl rfl⟩
      show v ∈ (add_folder db n).2.versions
      unfold add_folder
      split_ifs
      · exact hv
      · exact hv
    | updateFolder fid n =>
      exact Or.inl ⟨v, hv, rfl, rfl, rfl, rfl, rfl, rfl, Or.inl rfl⟩
    | deleteFolder fid =>
      left
      refine ⟨clearFolderV fid v, List.mem_map_of_mem _ hv, ?_⟩
      by_cases hb : v.folder_id = some fid
      · refine ⟨?_, ?_, ?_, ?_, ?_, ?_, Or.inr ⟨fid, rfl, hb, ?_⟩⟩ <;>
          simp [clearFolderV, hb]
      · have hceq : clearFolderV fid v = v := by simp [clearFolderV, hb]
        rw [hceq]
        exact ⟨rfl, rfl, rfl, rfl, rfl, rfl, Or.inl rfl⟩
  · refine List.filter_eq_nil_iff.mpr (fun w hw => ?_)
    have := (List.mem_filter.mp hw).2
    simp only [Bool.not_eq_true'] at this
    simp [this]

/-- Folder 1 plus prompt 1 filed in it: its version-1 row records
`folder_id = 1`. -/
def c5db : DB :=
  (add_prompt (add_folder emptyDB ("F".toList)).2 ("P".toList) ("c".toList)
    (some 1)).2

/-- Claim C5 counterexample: deleting folder 1 rewrites the existing
version row (id 1): its `folder_id` field changes from `some 1` to
`none` through `ON DELETE SET NULL`, so version rows are not immutable
under every operation. -/
theorem claim_C5_cex :
    c5db.versions.map (fun v => (v.id, v.folder_id)) = [(1, some 1)] ∧
    (applyOp c5db (.deleteFolder 1)).versions.map
      (fun v => (v.id, v.folder_id)) = [(1, none)] :=
  ⟨by decide, by decide⟩

/-- The version row owned by prompt 1 of `c5db`. -/
def c5v : PromptVersion := ⟨1, 1, ("P".toList), ("c".toList), some 1, 1, 1⟩

/-- Claim C5 witness: instantiating the amended invariant at `c5db`,
its version row, and an `add_folder` operation. -/
theorem claim_C5_witness :
    ((∃ v' ∈ (applyOp c5db (.addFolder ("G".toList))).versions,
      v'.id = c5v.id ∧ v'.prompt_id = c5v.prompt_id ∧ v'.title = c5v.title ∧
      v'.content = c5v.content ∧ v'.created_at = c5v.created_at ∧
      v'.version_number = c5v.version_number ∧
      (v'.folder_id = c5v.folder_id ∨
        ∃ fid, Op.addFolder ("G".toList) = .deleteFolder fid ∧
          c5v.folder_id = some fid ∧ v'.folder_id = none)) ∨
      Op.addFolder ("G".toList) = .deletePrompt c5v.prompt_id) ∧
    (delete_prompt c5db c5v.prompt_id).2.versions.filter
      (fun w => w.prompt_id == c5v.prompt_id) = [] :=
  claim_C5 c5db (.addFolder ("G".toList)) c5v (by decide)

/-! ### Reference-resolver lemmas -/

theorem twoRBraces_some {r tail : Str} (h : twoRBraces r = some tail) :
    r = '}' :: '}' :: tail := by
  cases r with
  | nil => simp [twoRBraces] at h
  | cons d1 r1 =>
    cases r1 with
    | nil => simp [twoRBraces] at h
    | cons d2 r2 =>
      unfold twoRBraces at h
      dsimp only at h
      split_ifs at h with hd
      · obtain ⟨h1, h2⟩ := hd
        injection h with h3
        rw [h1, h2, h3]

theorem matchMarker_some {s tok rest : Str}
    (h : matchMarker s = some (tok, rest)) :
    s = mkMarker tok ++ rest ∧ tok ≠ [] := by
  cases s with
  | nil => simp [matchMarker] at h
  | cons c1 s1 =>
    cases s1 with
    | nil => simp [matchMarker] at h
    | cons c2 r =>
      unfold matchMarker at h
      dsimp only at h
      split_ifs at h with hc
      · obtain ⟨h1, h2, h3⟩ := hc
        cases htw : twoRBraces (r.dropWhile (fun c => c != '}')) with
        | none => rw [htw] at h; cases h
        | some tail =>
          rw [htw] at h
          simp only [Option.some.injEq, Prod.mk.injEq] at h
          obtain ⟨h4, h5⟩ := h
          subst h4
          subst h5
          have hr := twoRBraces_some htw
          subst h1
          subst h2
          refine ⟨?_, h3⟩
          have hsplit : r = r.takeWhile (fun c => c != '}') ++
              ('}' :: '}' :: tail) := by
            conv_lhs => rw [← List.takeWhile_append_dropWhile
              (p := fun c => c != '}') (l := r)]
            rw [hr]
          conv_lhs => rw [hsplit]
          simp [mkMarker]

theorem matchMarker_length {s tok rest : Str}
    (h : matchMarker s = some (tok, rest)) :
    rest.length + 5 ≤ s.length := by
  obtain ⟨hs, hne⟩ := matchMarker_some h
  have hpos := List.length_pos.mpr hne
  rw [hs]
  simp [mkMarker]
  omega

theorem findMarker_length : ∀ {s : Str} {pre tok rest : Str},
    findMarker s = some (pre, tok, rest) → rest.length + 5 ≤ s.length := by
  intro s
  induction s with
  | nil => intro pre tok rest h; simp [findMarker] at h
  | cons c cs ih =>
    intro pre tok rest h
    unfold findMarker at h
    cases hmm : matchMarker (c :: cs) with
    | some x =>
      obtain ⟨tok₀, rest₀⟩ := x
      rw [hmm] at h
      simp only [Option.some.injEq, Prod.mk.injEq] at h
      obtain ⟨-, -, h3⟩ := h
      subst h3
      exact matchMarker_length hmm
    | none =>
      rw [hmm] at h
      dsimp only at h
      cases hfc : findMarker cs with
      | none => rw [hfc] at h; cases h
      | some y =>
        obtain ⟨p', t', r'⟩ := y
        rw [hfc] at h
        simp only [Option.map_some', Option.some.injEq, Prod.mk.injEq] at h
        obtain ⟨-, -, h3⟩ := h
        subst h3
        have := ih hfc
        simp only [List.length_cons]
        omega

theorem resolveAuxF_cons (db : DB) (fuel : Nat) (c : Char) (cs : Str) :
    resolveAuxF db (fuel + 1) (c :: cs) =
      match matchMarker (c :: cs) with
      | some (tok, rest) => replace_match db tok ++ resolveAuxF db fuel rest
      | none => c :: resolveAuxF db fuel cs := rfl

theorem allUnresolvedF_cons (db : DB) (fuel : Nat) (c : Char) (cs : Str) :
    allUnresolvedF db (fuel + 1) (c :: cs) =
      match matchMarker (c :: cs) with
      | some (tok, rest) =>
        replace_match db tok == mkMarker tok && allUnresolvedF db fuel rest
      | none => allUnresolvedF db fuel cs := rfl

theorem resolveAuxF_of_no_marker (db : DB) :
    ∀ (fuel : Nat) (s : Str), s.length ≤ fuel → findMarker s = none →
      resolveAuxF db fuel s = s
  | 0, s, _, _ => rfl
  | _ + 1, [], _, _ => rfl
  | fuel + 1, c :: cs, hlen, hfm => by
    unfold findMarker at hfm
    cases hmm : matchMarker (c :: cs) with
    | some x =>
      obtain ⟨tok, rest⟩ := x
      rw [hmm] at hfm
      simp at hfm
    | none =>
      rw [hmm] at hfm
      dsimp only at hfm
      have hfc : findMarker cs = none := by
        cases hfc : findMarker cs with
        | none => rfl
        | some y => rw [hfc] at hfm; simp at hfm
      rw [resolveAuxF_cons db fuel c cs, hmm]
      dsimp only
      rw [resolveAuxF_of_no_marker db fuel cs
        (by simp only [List.length_cons] at hlen; omega) hfc]

theorem resolveAuxF_fuel_irrel (db : DB) :
    ∀ (f1 f2 : Nat) (s : Str), s.length ≤ f1 → s.length ≤ f2 →
      resolveAuxF db f1 s = resolveAuxF db f2 s
  | 0, f2, s, h1, _ => by
    have hs : s = [] := List.eq_nil_of_length_eq_zero (Nat.le_zero.mp h1)
    subst hs
    cases f2 <;> rfl
  | _ + 1, 0, s, _, h2 => by
    have hs : s = [] := List.eq_nil_of_length_eq_zero (Nat.le_zero.mp h2)
    subst hs
    rfl
  | _ + 1, _ + 1, [], _, _ => rfl
  | f1 + 1, f2 + 1, c :: cs, h1, h2 => by
    rw [resolveAuxF_cons db f1 c cs, resolveAuxF_cons db f2 c cs]
    cases hmm : matchMarker (c :: cs) with
    | some x =>
      obtain ⟨tok, rest⟩ := x
      dsimp only
      have hml := matchMarker_length hmm
      simp only [List.length_cons] at h1 h2 hml
      rw [resolveAuxF_fuel_irrel db f1 f2 rest (by omega) (by omega)]
    | none =>
      dsimp only
      simp only [List.length_cons] at h1 h2
      rw [resolveAuxF_fuel_irrel db f1 f2 cs (by omega) (by omega)]

theorem resolveAuxF_decomp (db : DB) :
    ∀ (fuel : Nat) (s pre tok rest : Str), s.length ≤ fuel →
      findMarker s = some (pre, tok, rest) →
      resolveAuxF db fuel s =
        pre ++ replace_match db tok ++ resolveAuxF db rest.length rest
  | 0, s, pre, tok, rest, hlen, hfm => by
    have hs : s = [] := List.eq_nil_of_length_eq_zero (Nat.le_zero.mp hlen)
    subst hs
    simp [findMarker] at hfm
  | _ + 1, [], _, _, _, _, hfm => by simp [findMarker] at hfm
  | fuel + 1, c :: cs, pre, tok, rest, hlen, hfm => by
    unfold findMarker at hfm
    rw [resolveAuxF_cons db fuel c cs]
    cases hmm : matchMarker (c :: cs) with
    | some x =>
      obtain ⟨tok₀, rest₀⟩ := x
      rw [hmm] at hfm
      simp only [Option.some.injEq, Prod.mk.injEq] at hfm
      obtain ⟨h1, h2, h3⟩ := hfm
      subst h1
      subst h2
      subst h3
      dsimp only
      have hml := matchMarker_length hmm
      simp only [List.length_cons] at hlen hml
      rw [resolveAuxF_fuel_irrel db fuel rest₀.length rest₀ (by omega) (Nat.le_refl _)]
      simp
    | none =>
      rw [hmm] at hfm
      dsimp only at hfm
      cases hfc : findMarker cs with
      | none => rw [hfc] at hfm; cases hfm
      | some y =>
        obtain ⟨pre', tok', rest'⟩ := y
        rw [hfc] at hfm
        simp only [Option.map_some', Option.some.injEq, Prod.mk.injEq] at hfm
        obtain ⟨h1, h2, h3⟩ := hfm
        subst h1
        subst h2
        subst h3
        dsimp only
        simp only [List.length_cons] at hlen
        rw [resolveAuxF_decomp db fuel cs pre' tok' rest' (by omega) hfc]
        simp

theorem replace_match_eq_substSpec (db : DB) (tok : Str) :
    replace_match db tok = substSpec db tok := by
  unfold replace_match substSpec
  by_cases hd : (!tok.isEmpty && tok.all Char.isDigit) = true <;>
    cases hg : get_prompt db (digitsToNat tok) <;>
      simp [hd, hg]

theorem resolveAuxF_eq_specF (db : DB) :
    ∀ (fuel : Nat) (s : Str), s.length ≤ fuel →
      resolveAuxF db fuel s = resolveSpecF db fuel s
  | 0, _, _ => rfl
  | fuel + 1, s, hlen => by
    cases hfm : findMarker s with
    | none =>
      unfold resolveSpecF
      rw [hfm]
      exact resolveAuxF_of_no_marker db (fuel + 1) s hlen hfm
    | some x =>
      obtain ⟨pre, tok, rest⟩ := x
      unfold resolveSpecF
      rw [hfm]
      dsimp only
      rw [resolveAuxF_decomp db (fuel + 1) s pre tok rest hlen hfm]
      have hfl := findMarker_length hfm
      rw [resolveAuxF_fuel_irrel db rest.length fuel rest (le_refl _) (by omega)]
      rw [resolveAuxF_eq_specF db fuel rest (by omega)]
      rw [replace_match_eq_substSpec]

theorem resolveAuxF_of_unresolved (db : DB) :
    ∀ (fuel : Nat) (s : Str), s.length ≤ fuel →
      allUnresolvedF db fuel s = true → resolveAuxF db fuel s = s
  | 0, _, _, _ => rfl
  | _ + 1, [], _, _ => rfl
  | fuel + 1, c :: cs, hlen, hu => by
    rw [allUnresolvedF_cons db fuel c cs] at hu
    rw [resolveAuxF_cons db fuel c cs]
    cases hmm : matchMarker (c :: cs) with
    | some x =>
      obtain ⟨tok, rest⟩ := x
      rw [hmm] at hu
      dsimp only at hu ⊢
      simp only [Bool.and_eq_true, beq_iff_eq] at hu
      obtain ⟨hrr, hrest⟩ := hu
      rw [hrr]
      have hml := matchMarker_length hmm
      simp only [List.length_cons] at hlen hml
      rw [resolveAuxF_of_unresolved db fuel rest (by omega) hrest]
      exact (matchMarker_some hmm).1.symm
    | none =>
      rw [hmm] at hu
      dsimp only at hu ⊢
      simp only [List.length_cons] at hlen
      rw [resolveAuxF_of_unresolved db fuel cs (by omega) hu]

/-- Claim C4: `resolve_prompt_references` performs exactly the described
single left-to-right pass — each non-overlapping `{{token}}` span is
replaced by the id lookup (all-digits token) or else the exact title
lookup, or kept verbatim, with inserted text never rescanned — and when
every span of the pass keeps its original text the output is identical
to the input (in particular for marker-free input, where the pass is
empty). -/
theorem claim_C4 (db : DB) (s : Str) :
    resolve_prompt_references db s = resolveSpec db s ∧
    (allUnresolved db s = true → resolve_prompt_references db s = s) :=
  ⟨resolveAuxF_eq_specF db s.length s (Nat.le_refl _),
   fun h => resolveAuxF_of_unresolved db s.length s (Nat.le_refl _) h⟩

/-- Claim C4 witness: the unresolvable marker `{{nope}}` on the empty
store is left byte-identical. -/
theorem claim_C4_witness :
    allUnresolved emptyDB (mkMarker ("nope".toList)) = true ∧
    (resolve_prompt_references emptyDB (mkMarker ("nope".toList)) =
      resolveSpec emptyDB (mkMarker ("nope".toList)) ∧
    resolve_prompt_references emptyDB (mkMarker ("nope".toList)) =
      mkMarker ("nope".toList)) :=
  ⟨by decide, (claim_C4 emptyDB (mkMarker ("nope".toList))).1,
   (claim_C4 emptyDB (mkMarker ("nope".toList))).2 (by decide)⟩

/-! ### The invariant holds initially and is preserved by every
operation -/

theorem folderOk_append {fs gs : List Folder} {x : Option Nat}
    (h : folderOk fs x = true) : folderOk (fs ++ gs) x = true := by
  cases x with
  | none => rfl
  | some fid =>
    show (fs ++ gs).any (fun g => g.id == fid) = true
    rw [List.any_append]
    simp only [Bool.or_eq_true]
    exact Or.inl h

theorem folderOk_map {fs : List Folder} {fn : Folder → Folder}
    (hid : ∀ g, (fn g).id = g.id) (x : Option Nat) :
    folderOk (fs.map fn) x = folderOk fs x := by
  cases x with
  | none => rfl
  | some fid =>
    show (fs.map fn).any (fun g => g.id == fid) = fs.any (fun g => g.id == fid)
    induction fs with
    | nil => rfl
    | cons g gs ih => simp only [List.map_cons, List.any_cons, hid g, ih]

theorem DBInv_emptyDB : DBInv emptyDB := by
  refine ⟨?_, ?_, ?_, ?_⟩ <;> intro x hx <;> cases hx

theorem DBInv_add_prompt (db : DB) (t c : Str) (f : Option Nat)
    (h : DBInv db) : DBInv (add_prompt db t c f).2 := by
  obtain ⟨h1, h2, h3, h4⟩ := h
  unfold add_prompt
  split_ifs with hv hd hfo
  · exact ⟨h1, h2, h3, h4⟩
  · exact ⟨h1, h2, h3, h4⟩
  · refine ⟨?_, ?_, ?_, ?_⟩
    · intro p hp
      rcases List.mem_append.mp hp with hold | hnew
      · have := h1 p hold
        dsimp only
        omega
      · rw [List.mem_singleton.mp hnew]
        dsimp only
        omega
    · intro v hv
      rcases List.mem_append.mp hv with hold | hnew
      · have := h2 v hold
        dsimp only
        omega
      · rw [List.mem_singleton.mp hnew]
        dsimp only
        omega
    · intro v hv
      rcases List.mem_append.mp hv with hold | hnew
      · obtain ⟨q, hq, hqe⟩ := List.any_eq_true.mp (h3 v hold)
        exact List.any_eq_true.mpr ⟨q, List.mem_append_left _ hq, hqe⟩
      · rw [List.mem_singleton.mp hnew]
        refine List.any_eq_true.mpr
          ⟨⟨db.next_prompt_id, t, c, f, 1⟩,
           List.mem_append_right _ (by simp), by simp⟩
    · intro v hv
      rcases List.mem_append.mp hv with hold | hnew
      · exact h4 v hold
      · rw [List.mem_singleton.mp hnew]
        exact hfo
  · exact ⟨h1, h2, h3, h4⟩

theorem DBInv_update_prompt (db : DB) (pid : Nat) (t c : Str) (f : Option Nat)
    (h : DBInv db) : DBInv (update_prompt db pid t c f).2 := by
  obtain ⟨h1, h2, h3, h4⟩ := h
  unfold update_prompt
  cases hfp : db.prompts.find? (fun p => p.id == pid) with
  | none => exact ⟨h1, h2, h3, h4⟩
  | some p =>
    dsimp only
    split_ifs with hfo
    · have hpm : p ∈ db.prompts := List.mem_of_find?_eq_some hfp
      have hpid : p.id = pid := by
        have := List.find?_some hfp
        simpa using this
      refine ⟨?_, ?_, ?_, ?_⟩
      · intro q' hq'
        obtain ⟨q, hq, hqe⟩ := List.mem_map.mp hq'
        subst hqe
        have := h1 q hq
        by_cases hid : (q.id == pid) = true <;> simp [hid] <;> omega
      · intro v hv
        rcases List.mem_append.mp hv with hold | hnew
        · exact h2 v hold
        · rw [List.mem_singleton.mp hnew]
          have := h1 p hpm
          dsimp only
          omega
      · intro v hv
        rcases List.mem_append.mp hv with hold | hnew
        · obtain ⟨q, hq, hqe⟩ := List.any_eq_true.mp (h3 v hold)
          refine List.any_eq_true.mpr
            ⟨if (q.id == pid) = true then
              { q with
                title := t, content := c, folder_id := f,
                current_version := p.current_version + 1 }
            else q, List.mem_map_of_mem _ hq, ?_⟩
          by_cases hid : (q.id == pid) = true <;> simp [hid] <;>
            simpa using hqe
        · rw [List.mem_singleton.mp hnew]
          refine List.any_eq_true.mpr
            ⟨if (p.id == pid) = true then
              { p with
                title := t, content := c, folder_id := f,
                current_version := p.current_version + 1 }
            else p, List.mem_map_of_mem _ hpm, ?_⟩
          simp [hpid]
      · intro v hv
        rcases List.mem_append.mp hv with hold | hnew
        · exact h4 v hold
        · rw [List.mem_singleton.mp hnew]
          exact hfo
    · exact ⟨h1, h2, h3, h4⟩

theorem DBInv_restore_version (db : DB) (pid vn : Nat)
    (h : DBInv db) : DBInv (restore_version db pid vn).2 := by
  unfold restore_version
  cases get_prompt_version db pid vn with
  | none => exact h
  | some v => exact DBInv_update_prompt db pid v.title v.content v.folder_id h

theorem DBInv_delete_prompt (db : DB) (pid : Nat)
    (h : DBInv db) : DBInv (delete_prompt db pid).2 := by
  obtain ⟨h1, h2, h3, h4⟩ := h
  refine ⟨?_, ?_, ?_, ?_⟩
  · intro p hp
    exact h1 p (List.mem_filter.mp hp).1
  · intro v hv
    exact h2 v (List.mem_filter.mp hv).1
  · intro v hv
    obtain ⟨hvm, hpred⟩ := List.mem_filter.mp hv
    obtain ⟨q, hq, hqe⟩ := List.any_eq_true.mp (h3 v hvm)
    refine List.any_eq_true.mpr ⟨q, List.mem_filter.mpr ⟨hq, ?_⟩, hqe⟩
    simp only [Bool.not_eq_true', beq_eq_false_iff_ne] at hpred ⊢
    simp only [beq_iff_eq] at hqe
    omega
  · intro v hv
    exact h4 v (List.mem_filter.mp hv).1

theorem DBInv_add_folder (db : DB) (n : Str)
    (h : DBInv db) : DBInv (add_folder db n).2 := by
  obtain ⟨h1, h2, h3, h4⟩ := h
  unfold add_folder
  split_ifs with hv
  · exact ⟨h1, h2, h3, h4⟩
  · exact ⟨h1, h2, h3, fun v hv => folderOk_append (h4 v hv)⟩

theorem DBInv_update_folder (db : DB) (fid : Nat) (n : Str)
    (h : DBInv db) : DBInv (update_folder db fid n).2 := by
  obtain ⟨h1, h2, h3, h4⟩ := h
  refine ⟨h1, h2, h3, fun v hv => ?_⟩
  show folderOk (db.folders.map (fun f =>
    if f.id == fid then ⟨f.id, n⟩ else f)) v.folder_id = true
  rw [folderOk_map (fun g => by by_cases hg : (g.id == fid) = true <;> simp [hg])]
  exact h4 v hv

theorem DBInv_delete_folder (db : DB) (fid : Nat)
    (h : DBInv db) : DBInv (delete_folder db fid).2 := by
  obtain ⟨h1, h2, h3, h4⟩ := h
  refine ⟨?_, ?_, ?_, ?_⟩
  · intro p hp
    obtain ⟨q, hq, hqe⟩ := List.mem_map.mp hp
    subst hqe
    have := h1 q hq
    unfold clearFolderP
    split_ifs <;> simpa
  · intro v hv
    obtain ⟨w, hw, hwe⟩ := List.mem_map.mp hv
    subst hwe
    have := h2 w hw
    unfold clearFolderV
    split_ifs <;> simpa
  · intro v hv
    obtain ⟨w, hw, hwe⟩ := List.mem_map.mp hv
    subst hwe
    obtain ⟨q, hq, hqe⟩ := List.any_eq_true.mp (h3 w hw)
    refine List.any_eq_true.mpr ⟨clearFolderP fid q, List.mem_map_of_mem _ hq, ?_⟩
    have hqid : (clearFolderP fid q).id = q.id := by
      unfold clearFolderP
      split_ifs <;> rfl
    have hwid : (clearFolderV fid w).prompt_id = w.prompt_id := by
      unfold clearFolderV
      split_ifs <;> rfl
    rw [hqid, hwid]
    exact hqe
  · intro v hv
    obtain ⟨w, hw, hwe⟩ := List.mem_map.mp hv
    subst hwe
    unfold clearFolderV
    by_cases hb : (w.folder_id == some fid) = true
    · rw [if_pos hb]
      rfl
    · rw [if_neg hb]
      cases hwf : w.folder_id with
      | none => rfl
      | some g =>
        have hg : g ≠ fid := by
          rw [hwf] at hb
          simpa using hb
        have := h4 w hw
        rw [hwf] at this
        obtain ⟨f0, hf0, hf0e⟩ := List.any_eq_true.mp this
        refine List.any_eq_true.mpr
          ⟨f0, List.mem_filter.mpr ⟨hf0, ?_⟩, hf0e⟩
        simp only [beq_iff_eq] at hf0e
        simp only [Bool.not_eq_true', beq_eq_false_iff_ne]
        omega

/-- Every operation preserves the reachable-state invariant, so `DBInv`
holds in every state reachable from a fresh database. -/
theorem DBInv_applyOp (db : DB) (op : Op) (h : DBInv db) :
    DBInv (applyOp db op) := by
  cases op with
  | addPrompt t c f => exact DBInv_add_prompt db t c f h
  | updatePrompt pid t c f => exact DBInv_update_prompt db pid t c f h
  | restoreVersion pid vn => exact DBInv_restore_version db pid vn h
  | deletePrompt pid => exact DBInv_delete_prompt db pid h
  | addFolder n => exact DBInv_add_folder db n h
  | updateFolder fid n => exact DBInv_update_folder db fid n h
  | deleteFolder fid => exact DBInv_delete_folder db fid h
